import Mathlib

/-!
Shallow embedding of `src/display_agents.py`.

The program reads a Markdown file at a fixed path, extracts (name, description)
pairs grouped under 9 fixed category headings, and prints a formatted catalog.
We model the file system as an `Option String` (the content of the file at the
hardcoded path, `none` when the file does not exist), Python `str` as Lean
`String` (a sequence of Unicode code points, matching Python semantics for
`len`, slicing and iteration), and the console output of the presenter as the
list of arguments passed to `print`, in order.
-/

namespace DisplayAgents

/-- The whitespace set of Python `str.strip()` / `str.isspace()`: the exact
code points for which `chr(c).isspace()` holds -- the ASCII controls 09-0D,
1C-1F and the space 20, next-line 85, no-break space A0, Ogham space 1680,
the typographic spaces 2000-200A, the line and paragraph separators 2028 and
2029, narrow no-break space 202F, medium mathematical space 205F, and the
ideographic space 3000. -/
def pyIsSpace (c : Char) : Bool :=
  (9 ≤ c.toNat && c.toNat ≤ 13) ||
  (28 ≤ c.toNat && c.toNat ≤ 32) ||
  c.toNat = 133 || c.toNat = 160 || c.toNat = 5760 ||
  (8192 ≤ c.toNat && c.toNat ≤ 8202) ||
  c.toNat = 8232 || c.toNat = 8233 || c.toNat = 8239 || c.toNat = 8287 ||
  c.toNat = 12288

/-- Python `line.strip()`: drop leading and trailing whitespace. -/
def pyStrip (s : String) : String :=
  ⟨(s.data.dropWhile pyIsSpace).rdropWhile pyIsSpace⟩

/-- Python `s.startswith(pre)`. -/
def pyStartswith (s pre : String) : Bool :=
  pre.data.isPrefixOf s.data

/-- Python `needle in hay` substring containment on code-point sequences. -/
def isSubstr (needle : List Char) : List Char → Bool
  | [] => needle.isEmpty
  | c :: t => needle.isPrefixOf (c :: t) || isSubstr needle t

/-- Python `s[:n]` (code-point slice). -/
def pyTake (s : String) (n : Nat) : String := ⟨s.data.take n⟩

/-- Python `s[n:]` (code-point slice). -/
def pyDrop (s : String) (n : Nat) : String := ⟨s.data.drop n⟩

/-- Python `f"{s:n}"` for a `str`: left-justify, pad with spaces to width `n`. -/
def ljust (s : String) (n : Nat) : String :=
  s ++ ⟨List.replicate (n - s.data.length) ' '⟩

/-- Python `c * n` for a one-character string (`"=" * 80`, `"-" * 40`). -/
def repChar (n : Nat) (c : Char) : String := ⟨List.replicate n c⟩

/-- An agent entry: `(agent_name, agent_desc)` as captured by the regex. -/
abbrev Entry := String × String

/-- The `agents` dict: category name to ordered entry list, in insertion
order of the keys (Python dicts preserve insertion order). -/
abbrev Catalog := List (String × List Entry)

/-- The keys of the `agents` dict, in the order written in the source. -/
def categoryNames : List String :=
  ["Development & Architecture",
   "Language Specialists",
   "Infrastructure & Operations",
   "Quality & Security",
   "Data & AI",
   "Specialized Domains",
   "Documentation",
   "Business & Marketing",
   "SEO & Content Optimization"]

/-- The initial `agents` dict: every category mapped to the empty list. -/
def initAgents : Catalog := categoryNames.map (fun c => (c, []))

/-- `for cat in agents.keys(): if cat in line: current_category = cat; break` -/
def findCategory (line : String) : Option String :=
  categoryNames.find? (fun cat => isSubstr cat.data line.data)

/-- `agents[current_category].append((agent_name, agent_desc))`: the keys of
the dict are fixed, so the append rewrites the value at the matching key. -/
def appendEntry (cat : String) (e : Entry) (c : Catalog) : Catalog :=
  c.map (fun p => if p.1 = cat then (p.1, p.2 ++ [e]) else p)

/-- Dict lookup `agents[cat]` (empty list when the key is absent). -/
def getCat (c : Catalog) (cat : String) : List Entry :=
  match c.find? (fun p => p.1 == cat) with
  | some p => p.2
  | none => []

/-- Consume a literal prefix, returning the remainder on success. -/
def dropPrefix? : List Char → List Char → Option (List Char)
  | [], l => some l
  | _ :: _, [] => none
  | p :: ps, c :: cs => if p = c then dropPrefix? ps cs else none

/-- The regex `re.match` with the entry pattern (literal hyphen-space-stars-bracket, a name group of non-bracket characters, a link group of non-parenthesis characters, the literal separator, then the description group).
Since `[^\]]+` (resp. `[^\)]+`) is a maximal run followed by the literal
`]` (resp. `)`), backtracking never yields an alternative parse, so the
match is this deterministic scan.  `.` does not match a newline, hence the
description group is the maximal newline-free run and must be nonempty.
Returns `(group(1), group(2))` on success. -/
def matchEntry (l : List Char) : Option (String × String) :=
  match dropPrefix? "- **[".data l with
  | none => none
  | some r0 =>
    let name := r0.takeWhile (fun c => c ≠ ']')
    if name.isEmpty then none else
    match dropPrefix? "](".data (r0.dropWhile (fun c => c ≠ ']')) with
    | none => none
    | some r1 =>
      let link := r1.takeWhile (fun c => c ≠ ')')
      if link.isEmpty then none else
      match dropPrefix? ")** - ".data (r1.dropWhile (fun c => c ≠ ')')) with
      | none => none
      | some r2 =>
        let desc := r2.takeWhile (fun c => c ≠ '\n')
        if desc.isEmpty then none else some (⟨name⟩, ⟨desc⟩)

/-- Python `content.split('\n')`: split at every newline, no merging of
adjacent separators; the empty string splits to `[""]`. -/
def splitNl : List Char → List (List Char)
  | [] => [[]]
  | c :: t =>
    if c = '\n' then [] :: splitNl t
    else
      match splitNl t with
      | [] => [[c]]
      | l :: ls => (c :: l) :: ls

/-- One iteration of the `for line in content.split('\n')` loop.  State is
`(current_category, agents)`; `current_category = none` models Python `None`
(all category names are nonempty strings, so truthiness is `isSome`). -/
def processLine (st : Option String × Catalog) (line : String) :
    Option String × Catalog :=
  if pyStartswith line "### " && !pyStartswith line "### 🚀" then
    match findCategory line with
    | some cat => (some cat, st.2)
    | none => st
  else
    match st.1 with
    | some cat =>
      if pyStartswith (pyStrip line) "- **[" then
        match matchEntry (pyStrip line).data with
        | some e => (some cat, appendEntry cat e st.2)
        | none => st
      else st
    | none => st

/-- `parse_readme()`: `none` (the Python `None` sentinel) when the file is
absent, otherwise the catalog built by the line loop. -/
def parse_readme (file : Option String) : Option Catalog :=
  match file with
  | none => none
  | some content =>
    some ((((splitNl content.data).map fun l => (⟨l⟩ : String)).foldl
      processLine (none, initAgents)).2)

/-- The continuation lines of the word-wrap `while remaining:` loop:
`print(f"    {' ':30} {remaining[:70]}")`, then drop 70 characters. -/
def wrapLines : List Char → List String
  | [] => []
  | c :: t =>
    ("    " ++ ljust " " 30 ++ " " ++ (⟨(c :: t).take 70⟩ : String)) ::
      wrapLines ((c :: t).drop 70)
termination_by l => l.length
decreasing_by simp; omega

/-- The lines printed for one entry: the name line
`print(f"  • {agent_name:30} {agent_desc[:70]}")` and, when the description
exceeds 70 characters, the wrap lines for `agent_desc[70:]`. -/
def entryLines (e : Entry) : List String :=
  ("  • " ++ ljust e.1 30 ++ " " ++ pyTake e.2 70) ::
    (if e.2.data.length > 70 then wrapLines (e.2.data.drop 70) else [])

/-- The lines printed for one category: nothing when its list is empty,
otherwise the sub-banner, the dash separator, and the lines of each entry. -/
def categoryLines (cat : String) (entries : List Entry) : List String :=
  if entries.isEmpty then []
  else ("\n### " ++ cat) :: repChar 40 '-' :: entries.flatMap entryLines

/-- The fixed message printed when `parse_readme` yields no data. -/
def noDataMsg : String := "Unable to load agent information."

/-- The fixed title banner and separator printed before the categories. -/
def headerLines : List String :=
  ["\n📚 Available Claude Code Agents (75 total)\n", repChar 80 '=']

/-- The fixed closing separator, usage hint and model-distribution block. -/
def trailerLines : List String :=
  ["\n" ++ repChar 80 '=',
   "\n💡 Usage: Mention an agent by name or let Claude auto-select based on context",
   "   Example: \x27Use code-reviewer to check my changes\x27",
   "\n📦 Model Distribution:",
   "   • 🚀 Haiku (fast): 16 agents",
   "   • ⚡ Sonnet (balanced): 44 agents",
   "   • 🧠 Opus (powerful): 15 agents",
   ""]

/-- `display_agents()`: the list of strings passed to `print`, in order.
`if not agents:` is true for Python `None` and for an empty dict. -/
def display_agents (file : Option String) : List String :=
  match parse_readme file with
  | none => [noDataMsg]
  | some agents =>
    if agents.isEmpty then [noDataMsg]
    else
      headerLines ++ (agents.flatMap fun p => categoryLines p.1 p.2) ++
        trailerLines

/-- A concrete 85-character description, used as a test vector. -/
def descA85 : String := ⟨List.replicate 85 'a'⟩

/-- A line qualifies as a category heading and names a known category. -/
def isRecognizedHeading (line : String) : Bool :=
  pyStartswith line "### " && !pyStartswith line "### 🚀" &&
    (findCategory line).isSome

/-- A line that reaches the entry-matching branch: its stripped form starts
with the entry marker. -/
def isEntryShaped (line : String) : Bool :=
  pyStartswith (pyStrip line) "- **["

/-- The list of lines the parser iterates over for a given file content. -/
def contentLines (content : String) : List String :=
  (splitNl content.data).map fun l => (⟨l⟩ : String)

/- ### Helper lemmas -/

theorem dropPrefix?_append (p l : List Char) :
    dropPrefix? p (p ++ l) = some l := by
  induction p with
  | nil => rfl
  | cons c cs ih => simp [dropPrefix?, ih]

theorem parse_readme_some (content : String) :
    parse_readme (some content) =
      some (((contentLines content).foldl processLine (none, initAgents)).2) :=
  rfl

theorem pyStrip_head (line : String) (c : Char) (t : List Char)
    (hc : pyIsSpace c = false) (h : line.data = c :: t) :
    ∃ r, (pyStrip line).data = c :: r ∧ (c :: r) <+: line.data := by
  have hdw : line.data.dropWhile pyIsSpace = line.data := by
    rw [h]
    exact List.dropWhile_cons_of_neg (by simp [hc])
  have hpre : (pyStrip line).data <+: line.data := by
    show ((line.data.dropWhile pyIsSpace).rdropWhile pyIsSpace) <+: line.data
    rw [hdw]
    exact List.rdropWhile_prefix pyIsSpace line.data
  have hne : (pyStrip line).data ≠ [] := by
    show (line.data.dropWhile pyIsSpace).rdropWhile pyIsSpace ≠ []
    rw [hdw]
    intro hnil
    have := (List.rdropWhile_eq_nil_iff).mp hnil c (by rw [h]; exact List.mem_cons_self c t)
    rw [hc] at this
    exact Bool.false_ne_true this
  obtain ⟨s, hs⟩ := hpre
  cases hd : (pyStrip line).data with
  | nil => exact absurd hd hne
  | cons c2 r =>
    rw [hd, h] at hs
    have hc2 : c2 = c := by
      have := congrArg List.head? hs
      simpa using this
    subst hc2
    refine ⟨r, rfl, ?_⟩
    rw [h]
    exact ⟨s, hs⟩

theorem not_heading_of_strip_head (line : String) (c : Char) (r : List Char)
    (hne : c ≠ '#')
    (h : (pyStrip line).data = c :: r) :
    pyStartswith line "### " = false := by
  by_contra hcon
  have htrue : pyStartswith line "### " = true := by
    cases hb : pyStartswith line "### " with
    | false => exact absurd hb hcon
    | true => rfl
  have hpre : "### ".data <+: line.data := by
    have := ( List.isPrefixOf_iff_prefix).mp htrue
    exact this
  obtain ⟨t, ht⟩ := hpre
  have hdata : line.data = '#' :: ('#' :: '#' :: ' ' :: t) := by
    rw [← ht]; rfl
  obtain ⟨r2, hr2, hpre2⟩ := pyStrip_head line '#' _ (by decide) hdata
  rw [h] at hr2
  have : c = '#' := by
    have := congrArg List.head? hr2
    simpa using this
  exact hne this

theorem strip_entry_head (line : String) (r : List Char)
    (h : (pyStrip line).data = '-' :: r) :
    pyStartswith line "### " = false :=
  not_heading_of_strip_head line '-' r (by decide) h

theorem entryLines_len85 (name desc : String) (h : desc.data.length = 85) :
    entryLines (name, desc) =
      ["  • " ++ ljust name 30 ++ " " ++ pyTake desc 70,
       repChar 35 ' ' ++ pyDrop desc 70] ∧
      (pyDrop desc 70).data.length = 15 := by
  have hlen15 : (desc.data.drop 70).length = 15 := by
    rw [List.length_drop, h]
  constructor
  · show ("  • " ++ ljust name 30 ++ " " ++ pyTake desc 70) ::
      (if desc.data.length > 70 then wrapLines (desc.data.drop 70) else []) = _
    rw [if_pos (by rw [h]; exact Nat.lt_of_sub_eq_succ rfl)]
    cases hd : desc.data.drop 70 with
    | nil => rw [hd] at hlen15; simp at hlen15
    | cons c t =>
      rw [hd] at hlen15
      have hdrop : (c :: t).drop 70 = [] := by
        apply List.drop_eq_nil_of_le
        rw [hlen15]
        decide
      have htake : (c :: t).take 70 = c :: t := by
        apply List.take_of_length_le
        rw [hlen15]
        decide
      rw [wrapLines, hdrop, wrapLines, htake]
      have hconst : ("    " ++ ljust " " 30 ++ " ") = repChar 35 ' ' := by decide
      have : ("    " ++ ljust " " 30 ++ " " ++ (⟨c :: t⟩ : String)) =
          repChar 35 ' ' ++ pyDrop desc 70 := by
        rw [← hconst]
        show ("    " ++ ljust " " 30 ++ " ") ++ (⟨c :: t⟩ : String) = _
        rw [show pyDrop desc 70 = (⟨c :: t⟩ : String) from by
          show (⟨desc.data.drop 70⟩ : String) = _
          rw [hd]]
      rw [this]
  · show (desc.data.drop 70).length = 15
    exact hlen15

theorem takeWhile_until (stop : Char) (l r : List Char)
    (h : ∀ c ∈ l, c ≠ stop) :
    (l ++ stop :: r).takeWhile (fun c => decide (c ≠ stop)) = l := by
  induction l with
  | nil => simp
  | cons a t ih =>
    have ha : a ≠ stop := h a (List.mem_cons_self a t)
    simp only [List.cons_append]
    rw [List.takeWhile_cons_of_pos (by simpa using ha)]
    rw [ih (fun c hc => h c (List.mem_cons_of_mem a hc))]

theorem dropWhile_until (stop : Char) (l r : List Char)
    (h : ∀ c ∈ l, c ≠ stop) :
    (l ++ stop :: r).dropWhile (fun c => decide (c ≠ stop)) = stop :: r := by
  induction l with
  | nil => simp
  | cons a t ih =>
    have ha : a ≠ stop := h a (List.mem_cons_self a t)
    simp only [List.cons_append]
    rw [List.dropWhile_cons_of_pos (by simpa using ha)]
    exact ih (fun c hc => h c (List.mem_cons_of_mem a hc))

theorem takeWhile_all (stop : Char) (l : List Char) (h : ∀ c ∈ l, c ≠ stop) :
    l.takeWhile (fun c => decide (c ≠ stop)) = l := by
  induction l with
  | nil => rfl
  | cons a t ih =>
    have ha : a ≠ stop := h a (List.mem_cons_self a t)
    rw [List.takeWhile_cons_of_pos (by simpa using ha)]
    rw [ih (fun c hc => h c (List.mem_cons_of_mem a hc))]

theorem isEmpty_false_of_ne_nil {l : List Char} (h : l ≠ []) :
    l.isEmpty = false := by
  cases l with
  | nil => exact absurd rfl h
  | cons a t => rfl

/-- The regex succeeds on a well-formed entry line and captures the name and
the description verbatim. -/
theorem matchEntry_concat (nm lk ds : List Char)
    (hnm : nm ≠ []) (hnmc : ∀ c ∈ nm, c ≠ ']')
    (hlk : lk ≠ []) (hlkc : ∀ c ∈ lk, c ≠ ')')
    (hds : ds ≠ []) (hdsc : ∀ c ∈ ds, c ≠ '\n') :
    matchEntry ("- **[".data ++
        (nm ++ (']' :: '(' :: (lk ++ (")** - ".data ++ ds))))) =
      some (⟨nm⟩, ⟨ds⟩) := by
  have e0 := dropPrefix?_append "- **[".data
    (nm ++ (']' :: '(' :: (lk ++ (")** - ".data ++ ds))))
  have e1 : (nm ++ (']' :: '(' :: (lk ++ (")** - ".data ++ ds)))).takeWhile
      (fun c => decide (c ≠ ']')) = nm :=
    takeWhile_until ']' nm _ hnmc
  have e2 : (nm ++ (']' :: '(' :: (lk ++ (")** - ".data ++ ds)))).dropWhile
      (fun c => decide (c ≠ ']')) = ']' :: '(' :: (lk ++ (")** - ".data ++ ds)) :=
    dropWhile_until ']' nm _ hnmc
  have e3 : dropPrefix? "](".data
      (']' :: '(' :: (lk ++ (")** - ".data ++ ds))) =
      some (lk ++ (")** - ".data ++ ds)) := by
    have := dropPrefix?_append "](".data (lk ++ (")** - ".data ++ ds))
    exact this
  have e4 : (lk ++ (")** - ".data ++ ds)).takeWhile
      (fun c => decide (c ≠ ')')) = lk := by
    have h5 : ")** - ".data ++ ds = ')' :: ("** - ".data ++ ds) := rfl
    rw [h5]
    exact takeWhile_until ')' lk _ hlkc
  have e5 : (lk ++ (")** - ".data ++ ds)).dropWhile
      (fun c => decide (c ≠ ')')) = ")** - ".data ++ ds := by
    have h5 : ")** - ".data ++ ds = ')' :: ("** - ".data ++ ds) := rfl
    rw [h5]
    exact dropWhile_until ')' lk _ hlkc
  have e6 : dropPrefix? ")** - ".data (")** - ".data ++ ds) = some ds :=
    dropPrefix?_append _ _
  have e7 : ds.takeWhile (fun c => decide (c ≠ '\n')) = ds :=
    takeWhile_all '\n' ds hdsc
  simp only [matchEntry, e0, e1, e2, e3, e4, e5, e6, e7,
    isEmpty_false_of_ne_nil hnm, isEmpty_false_of_ne_nil hlk,
    isEmpty_false_of_ne_nil hds, Bool.false_eq_true, if_false]

theorem getCat_appendEntry_self (c : Catalog) (cat : String) (e : Entry)
    (h : cat ∈ c.map Prod.fst) :
    getCat (appendEntry cat e c) cat = getCat c cat ++ [e] := by
  induction c with
  | nil => simp at h
  | cons p t ih =>
    by_cases hp : p.1 = cat
    · simp only [appendEntry, List.map_cons, if_pos hp, getCat, List.find?]
      rw [show (p.1 == cat) = true from beq_iff_eq.mpr hp]
    · simp only [appendEntry, List.map_cons, if_neg hp, getCat, List.find?]
      rw [show (p.1 == cat) = false from beq_eq_false_iff_ne.mpr hp]
      have hmem : cat ∈ t.map Prod.fst := by
        simp only [List.map_cons, List.mem_cons] at h
        cases h with
        | inl heq => exact absurd heq.symm hp
        | inr hmem => exact hmem
      have := ih hmem
      simpa [appendEntry, getCat] using this

theorem getCat_appendEntry_other (c : Catalog) (cat c2 : String) (e : Entry)
    (h : c2 ≠ cat) : getCat (appendEntry cat e c) c2 = getCat c c2 := by
  induction c with
  | nil => rfl
  | cons p t ih =>
    by_cases hp : p.1 = c2
    · have hpcat : ¬ p.1 = cat := by rw [hp]; exact h
      simp only [appendEntry, List.map_cons, if_neg hpcat, getCat, List.find?]
      rw [show (p.1 == c2) = true from beq_iff_eq.mpr hp]
    · by_cases hpc : p.1 = cat
      · simp only [appendEntry, List.map_cons, if_pos hpc, getCat, List.find?]
        rw [show (p.1 == c2) = false from beq_eq_false_iff_ne.mpr hp]
        simpa [appendEntry, getCat] using ih
      · simp only [appendEntry, List.map_cons, if_neg hpc, getCat, List.find?]
        rw [show (p.1 == c2) = false from beq_eq_false_iff_ne.mpr hp]
        simpa [appendEntry, getCat] using ih

/-- Claim C1: when the input file is absent, `parse_readme` returns the
`None` sentinel and `display_agents` prints exactly the single line
"Unable to load agent information." and nothing else. -/
theorem claim1_missing_file :
    parse_readme none = none ∧
      display_agents none = ["Unable to load agent information."] :=
  ⟨rfl, rfl⟩

/-- Claim C2 counterexample: for the concrete entry
("code-reviewer", 85 copies of the letter a), the two lines the presenter
prints for the entry are not (name line, 30-space indent ++ remaining 15
characters): the continuation line actually carries a 35-space indent
(4 leading spaces, a 30-character blank field, and the separator space). -/
theorem claim2_counterexample :
    entryLines ("code-reviewer", descA85) ≠
      ["  • " ++ ljust "code-reviewer" 30 ++ " " ++ pyTake descA85 70,
       repChar 30 ' ' ++ pyDrop descA85 70] := by
  have h := entryLines_len85 "code-reviewer" descA85 (by decide)
  rw [h.1]
  decide

/-- Claim C2 (amended): for every entry whose description is exactly 85
characters, the presenter prints exactly two lines for the entry: the first
is "  • ", the name left-justified in a 30-character field, a separator
space, and the first 70 characters of the description; the second is a
35-space indent (4 leading spaces, a 30-character blank field, and the
separator space) followed by the remaining 15 characters. -/
theorem claim2_wrap_85 (name desc : String) (h : desc.data.length = 85) :
    entryLines (name, desc) =
      ["  • " ++ ljust name 30 ++ " " ++ pyTake desc 70,
       repChar 35 ' ' ++ pyDrop desc 70] ∧
      (pyDrop desc 70).data.length = 15 :=
  entryLines_len85 name desc h

/-- Claim C2 witness: the amended claim applied to the concrete entry
("code-reviewer", 85 copies of the letter a). -/
theorem claim2_wrap_85_witness :
    entryLines ("code-reviewer", descA85) =
      ["  • " ++ ljust "code-reviewer" 30 ++ " " ++ pyTake descA85 70,
       repChar 35 ' ' ++ pyDrop descA85 70] ∧
      (pyDrop descA85 70).data.length = 15 :=
  claim2_wrap_85 "code-reviewer" descA85 (by decide)

/-- Claim C3: a well-formed entry line (pattern
`- **[name](link)** - description`) processed while a category is current
appends the (name, description) pair, verbatim, at the end of that
sequence of that category and leaves every other category untouched. -/
theorem claim3_entry_appended (agents : Catalog) (cat line : String)
    (name link desc : String)
    (hkeys : agents.map Prod.fst = categoryNames)
    (hcat : cat ∈ categoryNames)
    (hname : name.data ≠ []) (hnamec : ∀ c ∈ name.data, c ≠ ']')
    (hlink : link.data ≠ []) (hlinkc : ∀ c ∈ link.data, c ≠ ')')
    (hdesc : desc.data ≠ []) (hdescc : ∀ c ∈ desc.data, c ≠ '\n')
    (hline : pyStrip line = "- **[" ++ name ++ "](" ++ link ++ ")** - " ++ desc) :
    processLine (some cat, agents) line =
      (some cat, appendEntry cat (name, desc) agents) ∧
    getCat (appendEntry cat (name, desc) agents) cat =
      getCat agents cat ++ [(name, desc)] ∧
    ∀ c2, c2 ≠ cat →
      getCat (appendEntry cat (name, desc) agents) c2 = getCat agents c2 := by
  have hdata : (pyStrip line).data =
      "- **[".data ++
        (name.data ++ (']' :: '(' :: (link.data ++ (")** - ".data ++ desc.data)))) := by
    rw [hline]
    simp [List.append_assoc]
  have hmatch : matchEntry (pyStrip line).data = some (name, desc) := by
    rw [hdata]
    exact matchEntry_concat name.data link.data desc.data
      hname hnamec hlink hlinkc hdesc hdescc
  have hstrip : (pyStrip line).data =
      '-' :: (" **[".data ++
        (name.data ++ (']' :: '(' :: (link.data ++ (")** - ".data ++ desc.data))))) := by
    rw [hdata]; rfl
  have hnothead : pyStartswith line "### " = false :=
    strip_entry_head line _ hstrip
  have hentry : pyStartswith (pyStrip line) "- **[" = true := by
    show "- **[".data.isPrefixOf (pyStrip line).data = true
    rw [hdata]
    exact ( List.isPrefixOf_iff_prefix).mpr (List.prefix_append _ _)
  refine ⟨?_, ?_, ?_⟩
  · show (if pyStartswith line "### " && !pyStartswith line "### 🚀" then _
      else _) = _
    rw [hnothead, Bool.false_and, if_neg (by simp)]
    show (if pyStartswith (pyStrip line) "- **[" then _ else _) = _
    rw [hentry, if_pos rfl, hmatch]
  · exact getCat_appendEntry_self agents cat (name, desc) (by rw [hkeys]; exact hcat)
  · exact fun c2 hc2 => getCat_appendEntry_other agents cat c2 (name, desc) hc2

/-- Claim C3 witness: the theorem applied to the Scenario A line of the spec under
the "Development & Architecture" category, starting from the empty catalog,
including the unchanged-other-category part at "Data & AI". -/
theorem claim3_entry_appended_witness :
    processLine (some "Development & Architecture", initAgents)
        "- **[code-reviewer](link)** - Reviews code for quality." =
      (some "Development & Architecture",
        appendEntry "Development & Architecture"
          ("code-reviewer", "Reviews code for quality.") initAgents) ∧
    getCat (appendEntry "Development & Architecture"
        ("code-reviewer", "Reviews code for quality.") initAgents)
        "Development & Architecture" =
      getCat initAgents "Development & Architecture" ++
        [("code-reviewer", "Reviews code for quality.")] ∧
    getCat (appendEntry "Development & Architecture"
        ("code-reviewer", "Reviews code for quality.") initAgents) "Data & AI" =
      getCat initAgents "Data & AI" := by
  have h := claim3_entry_appended initAgents "Development & Architecture"
    "- **[code-reviewer](link)** - Reviews code for quality."
    "code-reviewer" "link" "Reviews code for quality."
    (by decide) (by decide) (by decide) (by decide) (by decide) (by decide)
    (by decide) (by decide) (by decide)
  exact ⟨h.1, h.2.1, h.2.2 "Data & AI" (by decide)⟩

end DisplayAgents

namespace DisplayAgents

theorem find?_first {α : Type} (p : α → Bool) (l : List α) (a : α)
    (h : l.find? p = some a) :
    ∃ i, ∃ hi : i < l.length, l.get ⟨i, hi⟩ = a ∧ p a = true ∧
      ∀ j, ∀ hj : j < l.length, j < i → p (l.get ⟨j, hj⟩) = false := by
  induction l with
  | nil => simp [List.find?] at h
  | cons x t ih =>
    cases hpx : p x with
    | true =>
      have hax : a = x := by
        rw [List.find?_cons, hpx] at h
        exact (Option.some_injective _ h).symm
      subst hax
      refine ⟨0, Nat.succ_pos t.length, rfl, hpx, ?_⟩
      intro j hj hlt
      exact absurd hlt (Nat.not_lt_zero j)
    | false =>
      rw [List.find?_cons, hpx] at h
      obtain ⟨i, hi, hget, hpa, hmin⟩ := ih h
      refine ⟨i + 1, Nat.succ_lt_succ hi, hget, hpa, ?_⟩
      intro j hj hlt
      cases j with
      | zero => exact hpx
      | succ k =>
        exact hmin k (Nat.lt_of_succ_lt_succ hj) (Nat.lt_of_succ_lt_succ hlt)

theorem not_entry_of_strip_hash (line : String) (r : List Char)
    (h : (pyStrip line).data = '#' :: r) :
    pyStartswith (pyStrip line) "- **[" = false := by
  show "- **[".data.isPrefixOf (pyStrip line).data = false
  rw [h]
  rfl

/-- Claim C4: a qualifying heading line sets `current_category` to the
first category name, in the fixed enumeration order of the category list,
whose text occurs in the line; the catalog is unchanged. -/
theorem claim4_first_match_wins (cur : Option String) (agents : Catalog)
    (line cat : String)
    (hhead : pyStartswith line "### " = true)
    (hrocket : pyStartswith line "### 🚀" = false)
    (hfind : findCategory line = some cat) :
    processLine (cur, agents) line = (some cat, agents) ∧
    cat ∈ categoryNames ∧ isSubstr cat.data line.data = true ∧
    ∃ i, ∃ hi : i < categoryNames.length,
      categoryNames.get ⟨i, hi⟩ = cat ∧
      ∀ j, ∀ hj : j < categoryNames.length, j < i →
        isSubstr (categoryNames.get ⟨j, hj⟩).data line.data = false := by
  have hfind2 : categoryNames.find? (fun c => isSubstr c.data line.data) =
      some cat := hfind
  obtain ⟨i, hi, hget, hpa, hmin⟩ :=
    find?_first (fun c => isSubstr c.data line.data) categoryNames cat hfind2
  refine ⟨?_, ?_, hpa, i, hi, hget, hmin⟩
  · show (if pyStartswith line "### " && !pyStartswith line "### 🚀" then _
      else _) = _
    rw [hhead, hrocket, hfind]
    rfl
  · rw [← hget]
    exact List.get_mem categoryNames i hi

/-- Claim C4 witness: the heading "### Data & AI Documentation" contains
both "Data & AI" (index 4) and "Documentation" (index 6); the earlier one
is selected. -/
theorem claim4_first_match_wins_witness :
    processLine (none, initAgents) "### Data & AI Documentation" =
      (some "Data & AI", initAgents) ∧
    "Data & AI" ∈ categoryNames ∧
    isSubstr "Data & AI".data "### Data & AI Documentation".data = true ∧
    ∃ i, ∃ hi : i < categoryNames.length,
      categoryNames.get ⟨i, hi⟩ = "Data & AI" ∧
      ∀ j, ∀ hj : j < categoryNames.length, j < i →
        isSubstr (categoryNames.get ⟨j, hj⟩).data
          "### Data & AI Documentation".data = false :=
  claim4_first_match_wins none initAgents "### Data & AI Documentation"
    "Data & AI" (by decide) (by decide) (by decide)

/-- Claim C5: a line starting with "### 🚀" never changes the parser state,
and a qualifying heading in which no known category name occurs leaves
`current_category` (and the catalog) unchanged rather than clearing it. -/
theorem claim5_rocket_and_unmatched (cur : Option String) (agents : Catalog)
    (line : String) :
    (pyStartswith line "### 🚀" = true →
      processLine (cur, agents) line = (cur, agents)) ∧
    (pyStartswith line "### " = true → findCategory line = none →
      processLine (cur, agents) line = (cur, agents)) := by
  have ha : pyStartswith line "### 🚀" = true →
      processLine (cur, agents) line = (cur, agents) := by
    intro hr
    have hpre : "### 🚀".data <+: line.data :=
      ( List.isPrefixOf_iff_prefix).mp hr
    obtain ⟨t, ht⟩ := hpre
    have hdata : line.data = '#' :: ('#' :: '#' :: ' ' :: '🚀' :: t) := by
      rw [← ht]; rfl
    obtain ⟨r, hrstrip, hrpre⟩ := pyStrip_head line '#' _ (by decide) hdata
    have hnoentry : pyStartswith (pyStrip line) "- **[" = false :=
      not_entry_of_strip_hash line r hrstrip
    show (if pyStartswith line "### " && !pyStartswith line "### 🚀" then _
      else _) = _
    rw [hr]
    show (if pyStartswith line "### " && false then _ else _) = _
    rw [Bool.and_false, if_neg (by simp)]
    cases cur with
    | none => rfl
    | some c =>
      show (if pyStartswith (pyStrip line) "- **[" then _ else _) = _
      rw [hnoentry, if_neg (by simp)]
  refine ⟨ha, ?_⟩
  intro hhead hnone
  cases hr : pyStartswith line "### 🚀" with
  | true => exact ha hr
  | false =>
    show (if pyStartswith line "### " && !pyStartswith line "### 🚀" then _
      else _) = _
    rw [hhead, hr, hnone]
    rfl

/-- Claim C5 witness: a model-tier banner line and an unknown heading both
leave the state (some "Data & AI", empty catalog) unchanged. -/
theorem claim5_rocket_and_unmatched_witness :
    processLine (some "Data & AI", initAgents) "### 🚀 Haiku (fast)" =
      (some "Data & AI", initAgents) ∧
    processLine (some "Data & AI", initAgents) "### Mystery Section" =
      (some "Data & AI", initAgents) :=
  ⟨(claim5_rocket_and_unmatched (some "Data & AI") initAgents
      "### 🚀 Haiku (fast)").1 (by decide),
   (claim5_rocket_and_unmatched (some "Data & AI") initAgents
      "### Mystery Section").2 (by decide) (by decide)⟩

theorem appendEntry_keys (cat : String) (e : Entry) (c : Catalog) :
    (appendEntry cat e c).map Prod.fst = c.map Prod.fst := by
  induction c with
  | nil => rfl
  | cons p t ih =>
    by_cases hp : p.1 = cat
    · simp only [appendEntry, List.map_cons, if_pos hp] at ih ⊢
      rw [ih]
    · simp only [appendEntry, List.map_cons, if_neg hp] at ih ⊢
      rw [ih]

theorem processLine_keys (st : Option String × Catalog) (line : String) :
    ((processLine st line).2).map Prod.fst = st.2.map Prod.fst := by
  unfold processLine
  split
  · split <;> rfl
  · split
    · split
      · split
        · exact appendEntry_keys _ _ _
        · rfl
      · rfl
    · rfl

theorem foldl_keys (lines : List String) (st : Option String × Catalog) :
    (((lines.foldl processLine st).2).map Prod.fst) = st.2.map Prod.fst := by
  induction lines generalizing st with
  | nil => rfl
  | cons l t ih =>
    rw [List.foldl_cons]
    rw [ih (processLine st l)]
    exact processLine_keys st l

theorem initAgents_keys : initAgents.map Prod.fst = categoryNames := rfl

/-- Claim C6: at every point of the extraction pass (after any prefix of the
lines) and in the final result, the keys of the catalog are exactly the 9 fixed
category names, in order. -/
theorem claim6_keys_invariant (content : String) :
    (∀ n, ((((contentLines content).take n).foldl processLine
        (none, initAgents)).2).map Prod.fst = categoryNames) ∧
    ∀ agents, parse_readme (some content) = some agents →
      agents.map Prod.fst = categoryNames := by
  constructor
  · intro n
    rw [foldl_keys]
    exact initAgents_keys
  · intro agents h
    rw [parse_readme_some] at h
    have h2 := Option.some_injective _ h
    rw [← h2, foldl_keys]
    exact initAgents_keys

/-- Claim C6 witness: the invariant applied to the empty file content, after
one step and at the final catalog. -/
theorem claim6_keys_invariant_witness :
    ((((contentLines "").take 1).foldl processLine
        (none, initAgents)).2).map Prod.fst = categoryNames ∧
    initAgents.map Prod.fst = categoryNames :=
  ⟨(claim6_keys_invariant "").1 1,
   (claim6_keys_invariant "").2 initAgents rfl⟩

theorem foldl_no_heading (lines : List String) (agents : Catalog)
    (h : ∀ line ∈ lines, isRecognizedHeading line = false) :
    lines.foldl processLine (none, agents) = (none, agents) := by
  induction lines with
  | nil => rfl
  | cons l t ih =>
    have hl := h l (List.mem_cons_self l t)
    have hstep : processLine (none, agents) l = (none, agents) := by
      show (if pyStartswith l "### " && !pyStartswith l "### 🚀" then _
        else _) = _
      cases hcond : (pyStartswith l "### " && !pyStartswith l "### 🚀") with
      | false => rfl
      | true =>
        have hfc : findCategory l = none := by
          unfold isRecognizedHeading at hl
          rw [hcond] at hl
          simp only [Bool.true_and] at hl
          exact Option.not_isSome_iff_eq_none.mp (by rw [hl]; exact Bool.false_ne_true)
        rw [hfc]
        rfl
    rw [List.foldl_cons, hstep]
    exact ih (fun x hx => h x (List.mem_cons_of_mem l hx))

theorem foldl_no_entry (lines : List String) (st : Option String × Catalog)
    (h : ∀ line ∈ lines, isEntryShaped line = false) :
    ((lines.foldl processLine st).2) = st.2 := by
  induction lines generalizing st with
  | nil => rfl
  | cons l t ih =>
    have hl := h l (List.mem_cons_self l t)
    have hstep : (processLine st l).2 = st.2 := by
      show ((if pyStartswith l "### " && !pyStartswith l "### 🚀" then _
        else _ : Option String × Catalog)).2 = _
      cases hcond : (pyStartswith l "### " && !pyStartswith l "### 🚀") with
      | true =>
        cases hfc : findCategory l <;> rfl
      | false =>
        cases hcur : st.1 with
        | none => rfl
        | some c =>
          unfold isEntryShaped at hl
          rw [hl]
          rfl
    rw [List.foldl_cons]
    rw [ih (processLine st l) (fun x hx => h x (List.mem_cons_of_mem l hx))]
    exact hstep

/-- Claim C7: when every entry-shaped line of the input appears before the
first recognized category heading, the extracted catalog has every category
empty: none of those lines produces an entry anywhere. -/
theorem claim7_pre_heading_dropped (content : String) (k : Nat)
    (agents : Catalog)
    (hpre : ∀ line ∈ (contentLines content).take k,
      isRecognizedHeading line = false)
    (hpost : ∀ line ∈ (contentLines content).drop k,
      isEntryShaped line = false)
    (hparse : parse_readme (some content) = some agents) :
    agents = initAgents ∧ ∀ p ∈ agents, p.2 = ([] : List Entry) := by
  rw [parse_readme_some] at hparse
  have h2 := Option.some_injective _ hparse
  have hsplit : contentLines content =
      (contentLines content).take k ++ (contentLines content).drop k :=
    (List.take_append_drop k (contentLines content)).symm
  have hfold : ((contentLines content).foldl processLine
      (none, initAgents)).2 = initAgents := by
    rw [hsplit, List.foldl_append, foldl_no_heading _ _ hpre]
    exact foldl_no_entry _ _ hpost
  have hAgents : agents = initAgents := by rw [← h2, hfold]
  refine ⟨hAgents, ?_⟩
  intro p hp
  rw [hAgents] at hp
  simp only [initAgents, List.mem_map] at hp
  obtain ⟨c, _, hc⟩ := hp
  rw [← hc]

/-- Claim C7 witness: an entry line followed by the first recognized heading
(k = 1) leaves the catalog in its initial all-empty state. -/
theorem claim7_pre_heading_dropped_witness :
    (((contentLines "- **[a](b)** - c\n### Data & AI").foldl processLine
      (none, initAgents)).2) = initAgents :=
  (claim7_pre_heading_dropped "- **[a](b)** - c\n### Data & AI" 1 _
    (by decide) (by decide) rfl).1

/-- Claim C8: the extractor is a pure function of the file content: two runs
on the same unmodified content yield identical catalogs.  In this embedding
all state of the Python function (`current_category`, `agents`) is created
inside one run and never escapes it, so the result coincides definitionally. -/
theorem claim8_idempotent (file : Option String) :
    parse_readme file = parse_readme file ∧
    (parse_readme file, parse_readme file).1 =
      (parse_readme file, parse_readme file).2 :=
  ⟨rfl, rfl⟩

theorem wrapLines_mem_head (l : List Char) (s : String) (hs : s ∈ wrapLines l) :
    s.data.head? = some ' ' := by
  induction l using wrapLines.induct with
  | case1 =>
    rw [wrapLines] at hs
    exact absurd hs (List.not_mem_nil s)
  | case2 c t ih =>
    rw [wrapLines] at hs
    rcases List.mem_cons.mp hs with heq | htail
    · rw [heq]
      rfl
    · exact ih htail

theorem entryLines_mem_head (e : Entry) (s : String) (hs : s ∈ entryLines e) :
    s.data.head? = some ' ' := by
  unfold entryLines at hs
  rcases List.mem_cons.mp hs with heq | htail
  · rw [heq]
    rfl
  · by_cases hlen : e.2.data.length > 70
    · rw [if_pos hlen] at htail
      exact wrapLines_mem_head _ s htail
    · rw [if_neg hlen] at htail
      exact absurd htail (List.not_mem_nil s)

theorem categoryLines_mem_ne_msg (cat : String) (entries : List Entry)
    (s : String) (hs : s ∈ categoryLines cat entries) : s ≠ noDataMsg := by
  unfold categoryLines at hs
  by_cases hempt : entries.isEmpty
  · rw [if_pos hempt] at hs
    exact absurd hs (List.not_mem_nil s)
  · rw [if_neg hempt] at hs
    intro heq
    subst heq
    have hU : noDataMsg.data.head? = some 'U' := rfl
    rcases List.mem_cons.mp hs with h1 | hs2
    · have : noDataMsg.data.head? = some '\n' := by rw [h1]; rfl
      rw [hU] at this
      simp at this
    · rcases List.mem_cons.mp hs2 with h2 | hs3
      · have : noDataMsg.data.head? = some '-' := by rw [h2]; rfl
        rw [hU] at this
        simp at this
      · obtain ⟨e, _, hmem⟩ := List.mem_flatMap.mp hs3
        have := entryLines_mem_head e noDataMsg hmem
        rw [hU] at this
        simp at this

/-- Claim C9: for every existing file content -- including empty content --
the presenter never prints the sentinel message: the parser always returns a
catalog (with all 9 keys), the no-data test only recognises the sentinel,
and the full banner, separators, usage hint and model-distribution block are
printed around the category body. -/
theorem claim9_no_sentinel_when_file_exists (content : String) :
    display_agents (some content) ≠ [noDataMsg] ∧
    (∃ body, display_agents (some content) =
      headerLines ++ body ++ trailerLines) ∧
    noDataMsg ∉ display_agents (some content) := by
  have hkeys : ((((contentLines content).foldl processLine
      (none, initAgents)).2).map Prod.fst) = categoryNames := by
    rw [foldl_keys]
    rfl
  have hne : (((contentLines content).foldl processLine
      (none, initAgents)).2).isEmpty = false := by
    cases hA : ((contentLines content).foldl processLine
        (none, initAgents)).2 with
    | nil =>
      rw [hA] at hkeys
      exact absurd hkeys.symm (by decide)
    | cons p t => rfl
  have hdisp : display_agents (some content) =
      headerLines ++
        ((((contentLines content).foldl processLine
          (none, initAgents)).2).flatMap fun p => categoryLines p.1 p.2) ++
        trailerLines := by
    show (match parse_readme (some content) with
      | none => [noDataMsg]
      | some agents =>
        if agents.isEmpty then [noDataMsg]
        else headerLines ++ (agents.flatMap fun p => categoryLines p.1 p.2) ++
          trailerLines) = _
    rw [parse_readme_some]
    show (if (((contentLines content).foldl processLine
        (none, initAgents)).2).isEmpty then _ else _) = _
    rw [hne]
    rfl
  have hnotmem : noDataMsg ∉ display_agents (some content) := by
    rw [hdisp]
    intro hmem
    rcases List.mem_append.mp hmem with hmem2 | htrail
    · rcases List.mem_append.mp hmem2 with hhead | hbody
      · exact absurd hhead (by decide)
      · obtain ⟨p, _, hmem3⟩ := List.mem_flatMap.mp hbody
        exact categoryLines_mem_ne_msg p.1 p.2 noDataMsg hmem3 rfl
    · exact absurd htrail (by decide)
  refine ⟨?_, ⟨_, hdisp⟩, hnotmem⟩
  intro heq
  apply hnotmem
  rw [heq]
  exact List.mem_singleton.mpr rfl

theorem processLine_snd_of_no_match (st : Option String × Catalog)
    (line : String) (h : matchEntry (pyStrip line).data = none) :
    (processLine st line).2 = st.2 := by
  show ((if pyStartswith line "### " && !pyStartswith line "### 🚀" then _
    else _ : Option String × Catalog)).2 = _
  cases hcond : (pyStartswith line "### " && !pyStartswith line "### 🚀") with
  | true => cases hfc : findCategory line <;> rfl
  | false =>
    cases hcur : st.1 with
    | none => rfl
    | some c =>
      cases hent : pyStartswith (pyStrip line) "- **[" with
      | false => rfl
      | true =>
        rw [h]
        rfl

/-- Claim C10: an entry-shaped line with an empty name group, an empty link
group, or an empty description is rejected by the pattern (each group needs
at least one character), and a line whose stripped form the pattern rejects
never adds an entry to the catalog. -/
theorem claim10_empty_groups_rejected (name link desc : String)
    (hnamec : ∀ c ∈ name.data, c ≠ ']')
    (hlinkc : ∀ c ∈ link.data, c ≠ ')') :
    matchEntry ("- **[](" ++ link ++ ")** - " ++ desc).data = none ∧
    matchEntry ("- **[" ++ name ++ "]()** - " ++ desc).data = none ∧
    matchEntry ("- **[" ++ name ++ "](" ++ link ++ ")** - ").data = none ∧
    ∀ st line, matchEntry (pyStrip line).data = none →
      (processLine st line).2 = st.2 := by
  refine ⟨?_, ?_, ?_, fun st line h => processLine_snd_of_no_match st line h⟩
  · have hdata : ("- **[](" ++ link ++ ")** - " ++ desc).data =
        "- **[".data ++ (']' :: '(' :: (link.data ++ (")** - ".data ++ desc.data))) := by
      simp [List.append_assoc]
    rw [hdata]
    simp only [matchEntry, dropPrefix?_append]
    rw [List.takeWhile_cons_of_neg (by simp)]
    rfl
  · have hdata : ("- **[" ++ name ++ "]()** - " ++ desc).data =
        "- **[".data ++ (name.data ++ (']' :: '(' :: (')' :: ("** - ".data ++ desc.data)))) := by
      simp [List.append_assoc]
    rw [hdata]
    by_cases hnm : name.data = []
    · rw [hnm]
      simp only [matchEntry, dropPrefix?_append, List.nil_append]
      rw [List.takeWhile_cons_of_neg (by simp)]
      rfl
    · simp only [matchEntry, dropPrefix?_append,
        takeWhile_until ']' name.data _ hnamec,
        dropWhile_until ']' name.data _ hnamec,
        isEmpty_false_of_ne_nil hnm]
      have e3 : dropPrefix? "](".data
          (']' :: '(' :: (')' :: ("** - ".data ++ desc.data))) =
          some (')' :: ("** - ".data ++ desc.data)) :=
        dropPrefix?_append "](".data _
      simp only [e3]
      rw [List.takeWhile_cons_of_neg (by simp)]
      rfl
  · have hdata : ("- **[" ++ name ++ "](" ++ link ++ ")** - ").data =
        "- **[".data ++
          (name.data ++ (']' :: '(' :: (link.data ++ (')' :: "** - ".data)))) := by
      simp [List.append_assoc]
    rw [hdata]
    by_cases hnm : name.data = []
    · rw [hnm]
      simp only [matchEntry, dropPrefix?_append, List.nil_append]
      rw [List.takeWhile_cons_of_neg (by simp)]
      rfl
    · by_cases hlk : link.data = []
      · rw [hlk]
        simp only [matchEntry, dropPrefix?_append,
          takeWhile_until ']' name.data _ hnamec,
          dropWhile_until ']' name.data _ hnamec,
          isEmpty_false_of_ne_nil hnm, List.nil_append]
        have e3 : dropPrefix? "](".data
            (']' :: '(' :: (')' :: "** - ".data)) =
            some (')' :: "** - ".data) :=
          dropPrefix?_append "](".data _
        simp only [e3]
        rw [List.takeWhile_cons_of_neg (by simp)]
        rfl
      · simp only [matchEntry, dropPrefix?_append,
          takeWhile_until ']' name.data _ hnamec,
          dropWhile_until ']' name.data _ hnamec,
          isEmpty_false_of_ne_nil hnm]
        have e3 : dropPrefix? "](".data
            (']' :: '(' :: (link.data ++ (')' :: "** - ".data))) =
            some (link.data ++ (')' :: "** - ".data)) :=
          dropPrefix?_append "](".data _
        simp only [e3,
          takeWhile_until ')' link.data _ hlinkc,
          dropWhile_until ')' link.data _ hlinkc,
          isEmpty_false_of_ne_nil hlk]
        have e6 : dropPrefix? ")** - ".data (')' :: "** - ".data) = some [] := by
          have h7 := dropPrefix?_append ")** - ".data []
          rw [List.append_nil] at h7
          exact h7
        simp only [e6]
        rfl

/-- Claim C10 witness: the three degenerate lines with a concrete name, link
and description, and the no-change consequence for the line "- **[a](b)** - "
(empty description) from the state (some "Data & AI", empty catalog). -/
theorem claim10_empty_groups_rejected_witness :
    matchEntry ("- **[](" ++ "b" ++ ")** - " ++ "d").data = none ∧
    matchEntry ("- **[" ++ "a" ++ "]()** - " ++ "d").data = none ∧
    matchEntry ("- **[" ++ "a" ++ "](" ++ "b" ++ ")** - ").data = none ∧
    (processLine (some "Data & AI", initAgents) "- **[a](b)** - ").2 =
      initAgents := by
  have h := claim10_empty_groups_rejected "a" "b" "d" (by decide) (by decide)
  exact ⟨h.1, h.2.1, h.2.2.1,
    h.2.2.2 (some "Data & AI", initAgents) "- **[a](b)** - " (by decide)⟩

end DisplayAgents
